import Mathlib

/-!
Shallow embedding of the chunk compiler in `src/compiler.rs` of the
c-65816 assembler toolchain.  The compiler consumes a stream of parsed
statements and produces a stream of `CompileData` units (labeled chunks,
defines, errors).  Collaborator modules (`expression`, `instructions`,
`addrmodes`, the parser) are not part of the repository snapshot; where a
claim depends on them they are modelled from the spec, and marked so.

Rust panics (`panic!`, `.unwrap()` failures) abort the process; they are
modelled as `Except.error` values of type `Fault`.  Machine integers are
modelled as `Int`/`Nat` with explicit wrap at the byte-writing boundary:
`x as u8` / `as i8` both store the byte `x % 2^8` (Int.emod, two's
complement), `as u16`/`as i16` store `x % 2^16` little-endian, and the
intermediate `as i32` casts in `merge_labels` are invisible modulo
`2^8`/`2^16`, so the stored bytes are unchanged by modelling the
subtraction exactly over `Int`.
-/

/-- Modelled from the spec (the `expression` module is not in the snapshot):
operand size classification `SizeHint` = {Implicit, Byte, Word, Long,
RelByte, RelWord}; `Rel*` are signed displacements relative to the byte
following the operand. -/
inductive SizeHint where
  | Implicit
  | Byte
  | Word
  | Long
  | RelByte
  | RelWord
deriving DecidableEq, Repr

/-- Modelled from the spec (the `expression` module is not in the snapshot):
expression trees over empty, constant, unresolved-symbol identities, and
resolved-offset leaves, with operator nodes; `NegId`/`PosId`/`LocalId`
are the identities minted by the Symbol Identity Allocator for backward
anonymous, forward anonymous, and named depth-scoped local labels. -/
inductive ExprNode where
  | Empty
  | Constant (c : Int)
  | LabelOffset (c : Int)
  | NegId (c : Nat) (serial : Nat)
  | PosId (c : Nat) (serial : Nat)
  | LocalId (depth : Nat) (name : String) (serial : Nat)
  | Add (l r : ExprNode)
deriving DecidableEq, Repr

/-- Modelled from the spec: an expression carries its tree and an optional
size classification (`Expression { root, size }` in the Rust code). -/
structure Expression where
  root : ExprNode
  size : SizeHint
deriving DecidableEq, Repr

/-- Modelled from the spec: leaf traversal with in-place mutation
(`Expression::each_mut`); every leaf present as a key of the local label
table is replaced by a `LabelOffset` carrying its byte offset, other
leaves are left untouched (the `None => return` arm of the closure in
`merge_labels`). -/
def substLeaf (labels : List (ExprNode × Nat)) : ExprNode → ExprNode
  | .Add l r => .Add (substLeaf labels l) (substLeaf labels r)
  | leaf =>
    match labels.lookup leaf with
    | some k => .LabelOffset (Int.ofNat k)
    | none => leaf

/-- Modelled from the spec: `reduce()` folds the tree to the simplest
possible root node (constant folding of operator nodes). -/
def reduceNode : ExprNode → ExprNode
  | .Add l r =>
    match reduceNode l, reduceNode r with
    | .Constant a, .Constant b => .Constant (a + b)
    | .LabelOffset a, .Constant b => .LabelOffset (a + b)
    | .Constant a, .LabelOffset b => .LabelOffset (a + b)
    | l', r' => .Add l' r'
  | n => n

/-- Modelled from the spec: read-only leaf traversal (`Expression::each`)
classifying the operand as constant-only: every leaf is a constant or
empty (`Constant(_) | Empty` keep `const_only`, anything else clears it). -/
def leafConstOnly : ExprNode → Bool
  | .Add l r => leafConstOnly l && leafConstOnly r
  | .Constant _ => true
  | .Empty => true
  | _ => false

/-- `LabelRef` from `compiler.rs`: a fixup — byte offset within the chunk,
the expression to resolve, and the same-bank requirement. -/
structure LabelRef where
  offset : Nat
  expr : Expression
  same_bank : Bool
deriving DecidableEq, Repr

/-- Modelled from the spec: chunk attributes; a bank-pin attribute carries
the bank number, other attributes pass through opaquely. -/
inductive Attribute where
  | Bank (c : Nat)
  | Other (s : String)
deriving DecidableEq, Repr

/-- `LabeledChunk` from `compiler.rs`: byte buffer (each entry < 256),
outgoing fixups, attributes, diverging flag, optional bank pin.
`Default` gives empty buffers, `diverging = false`, no bank pin. -/
structure LabeledChunk where
  data : List Nat := []
  pending_exprs : List LabelRef := []
  attrs : List Attribute := []
  diverging : Bool := false
  bank_hint : Option Nat := none
deriving DecidableEq, Repr

/-- Rust panics reachable from `Compiler::res_next`, modelled as explicit
faults: `internalConsistency` is the `panic!("This doesn't make any
sense.")` on a Rel-sized constant root, `weirdSize` the
`panic!("Weird size?")`, `addressingModeMismatch` the panic inside
`map_err` on `AddressingMode::parse` failure, `sourceError` the panic on
a `Statement::Error`, `unwrapNone` an `Option::unwrap` of `None`. -/
inductive Fault where
  | internalConsistency
  | weirdSize
  | addressingModeMismatch
  | sourceError
  | unwrapNone
deriving DecidableEq, Repr

/-- `CompileData` from `compiler.rs` (the `Error` payload is reduced to a
message string; the only Rust variant is a wrapped parse error). -/
inductive CompileData where
  | Chunk (label : String) (chunk : LabeledChunk)
  | Define (label : String) (expr : Expression)
  | Error (msg : String)
deriving DecidableEq, Repr

/-- One byte of `x` as stored by `write_u8(x as u8)` / `write_i8(x as i8)`:
the two's-complement low byte, `x % 256` with Int.emod. -/
def u8 (x : Int) : Nat := (x % 256).toNat

/-- Two little-endian bytes of `x` as stored by `write_u16`/`write_i16`. -/
def u16le (x : Int) : List Nat :=
  let u := (x % 65536).toNat
  [u % 256, u / 256]

/-- Three little-endian bytes of `x` as stored by `write_u24`. -/
def u24le (x : Int) : List Nat :=
  let u := (x % 16777216).toNat
  [u % 256, u / 256 % 256, u / 65536]

/-- Writing one byte at a cursor position over a `Vec<u8>`: overwrite in
range, zero-pad then append when seeking past the end. -/
def storeByte (data : List Nat) (off : Nat) (b : Nat) : List Nat :=
  if off < data.length then data.set off b
  else data ++ List.replicate (off - data.length) 0 ++ [b]

/-- Sequential cursor writes starting at `off`. -/
def storeBytes (data : List Nat) (off : Nat) : List Nat → List Nat
  | [] => data
  | b :: bs => storeBytes (storeByte data off b) (off + 1) bs

/-- The per-fixup loop of `merge_labels`: substitute locally-known labels
into each queued fixup in order, reduce, and dispatch on the reduced
root — drop on `Empty`, patch constants at width 1/2/3 (Byte/Word/Long),
patch `Rel*` displacements `c - offset - 1` for resolved offsets, defer
everything else (in order) to the linker list.  The Rust panics on a
Rel-sized constant root and on a remaining size surface as faults. -/
def mergeGo (labels : List (ExprNode × Nat)) :
    List LabelRef → List Nat → List LabelRef → Except Fault (List Nat × List LabelRef)
  | [], data, acc => .ok (data, acc)
  | r :: rs, data, acc =>
    let e : Expression := ⟨reduceNode (substLeaf labels r.expr.root), r.expr.size⟩
    match e.root with
    | .Empty => mergeGo labels rs data acc
    | .Constant c =>
      match e.size with
      | .RelByte => .error .internalConsistency
      | .RelWord => .error .internalConsistency
      | .Byte => mergeGo labels rs (storeBytes data r.offset [u8 c]) acc
      | .Word => mergeGo labels rs (storeBytes data r.offset (u16le c)) acc
      | .Long => mergeGo labels rs (storeBytes data r.offset (u24le c)) acc
      | .Implicit => .error .weirdSize
    | .LabelOffset c =>
      match e.size with
      | .RelByte =>
        mergeGo labels rs (storeBytes data r.offset [u8 (c - r.offset - 1)]) acc
      | .RelWord =>
        mergeGo labels rs (storeBytes data r.offset (u16le (c - r.offset - 1))) acc
      | _ => mergeGo labels rs data (acc ++ [{ r with expr := e }])
    | _ => mergeGo labels rs data (acc ++ [{ r with expr := e }])

/-- `merge_labels` from `compiler.rs`: run the fixup resolver over the
chunk's buffer and install the deferred fixups as the chunk's outgoing
`pending_exprs`. -/
def mergeLabels (chunk : LabeledChunk) (labels : List (ExprNode × Nat))
    (pending : List LabelRef) : Except Fault LabeledChunk :=
  match mergeGo labels pending chunk.data [] with
  | .ok (data, linker) => .ok { chunk with data := data, pending_exprs := linker }
  | .error e => .error e

/-- Modelled from the spec: the Symbol Identity Allocator
(`LocalLabelState`): mints fresh comparable identities for backward
anonymous, forward anonymous and named depth-scoped local labels;
successive requests return distinct identities.  The exact distance
semantics for repeated sigils is collaborator-owned (spec open
question); only freshness is relied on. -/
structure LocalLabelState where
  negCtr : Nat := 0
  posCtr : Nat := 0
  locCtr : Nat := 0
deriving DecidableEq, Repr

/-- Modelled from the spec: `incr_neg_id` allocates a backward-occurrence
identity. -/
def incrNegId (lls : LocalLabelState) (c : Nat) : ExprNode × LocalLabelState :=
  (.NegId c lls.negCtr, { lls with negCtr := lls.negCtr + 1 })

/-- Modelled from the spec: `incr_pos_id` allocates a forward-occurrence
identity. -/
def incrPosId (lls : LocalLabelState) (c : Nat) : ExprNode × LocalLabelState :=
  (.PosId c lls.posCtr, { lls with posCtr := lls.posCtr + 1 })

/-- Modelled from the spec: `push_local` allocates a named depth-scoped
local label identity. -/
def pushLocal (lls : LocalLabelState) (depth : Nat) (name : String) :
    ExprNode × LocalLabelState :=
  (.LocalId depth name lls.locCtr, { lls with locCtr := lls.locCtr + 1 })

/-- The label token of a `Label` statement: a top-level identifier, or a
backward/forward anonymous sigil (`Span::Ident` / `Span::NegLabel` /
`Span::PosLabel`). -/
inductive SpanName where
  | Ident (s : String)
  | NegLabel (c : Nat)
  | PosLabel (c : Nat)
deriving DecidableEq, Repr

/-- The statement variants of `parser::Statement` consumed by
`Compiler::res_next`.  An `Instruction` carries the mnemonic, the
syntactic operand form's declared size (`size.0`), and the operand
expression (`arg.expr`). -/
inductive Statement where
  | Define (label : String) (expr : Expression)
  | Label (name : SpanName) (attrs : List Attribute)
  | LocalLabel (depth : Nat) (name : String)
  | RawData (data : List Nat) (pending_exprs : List (Nat × Expression))
  | Instruction (name : String) (size : SizeHint) (arg : Expression)
  | Error (msg : String)
deriving DecidableEq, Repr

/-- Collaborator boundary (the `instructions` and `addrmodes` modules are
not in the snapshot): `size_hint` is `instructions::size_hint` on the
upper-cased mnemonic, `sizeAndThen` is `SizeHint::and_then` (size
narrowing), and `encode` combines `AddressingMode::parse`,
`Instruction::new`, `is_diverging` and `write_to`: it returns the
instruction's encoded bytes and its control-transfer flag, or `none` for
an addressing-mode mismatch. -/
structure Env where
  size_hint : String → SizeHint
  sizeAndThen : SizeHint → SizeHint → SizeHint
  encode : String → Expression → SizeHint → Option (List Nat × Bool)

/-- The compiler fields that persist across `res_next` calls other than
the statement stream: the small output queue `extra` (a `Vec` used as a
stack: push and pop both act on the same end, modelled at the list
head), the pending label/attribute pair, and the shared allocator
state. -/
structure CompState where
  extra : List CompileData := []
  next_label : Option String := some "*root"
  next_attrs : List Attribute := []
  lls : LocalLabelState := {}
deriving DecidableEq, Repr

/-- The per-call accumulation of `res_next`: the open chunk, the local
label table (association list mirroring the `HashMap`; insertion is a
shadowing cons) and the queued fixups. -/
structure ChunkAcc where
  chunk : LabeledChunk := {}
  labels : List (ExprNode × Nat) := []
  pending : List LabelRef := []
deriving DecidableEq, Repr

/-- Bank-pin scan of `Label` handling: `for i in &attrs { Attribute::Bank(c)
=> chunk.bank_hint = Some(*c), _ => {} }` — the last bank attribute
wins. -/
def bankFold (attrs : List Attribute) (b : Option Nat) : Option Nat :=
  attrs.foldl (fun b a => match a with | .Bank c => some c | _ => b) b

/-- One iteration of the `res_next` statement loop.  Returns the updated
persistent state and accumulator, and `some unit` when the statement
ends the current chunk (a top-level label), `none` when the loop
continues.  Faithful to `compiler.rs` lines 186-262, with panics as
faults. -/
def stepStmt (env : Env) (cs : CompState) (acc : ChunkAcc) :
    Statement → Except Fault (CompState × ChunkAcc × Option CompileData)
  | .Define label expr =>
    .ok ({ cs with extra := .Define label expr :: cs.extra }, acc, none)
  | .Label (.Ident name) attrs =>
    match cs.next_label with
    | none => .error .unwrapNone
    | some old =>
      match mergeLabels acc.chunk acc.labels acc.pending with
      | .error e => .error e
      | .ok mch =>
        let pendAttrs := cs.next_attrs
        let mch := { mch with
          bank_hint := bankFold pendAttrs mch.bank_hint, attrs := pendAttrs }
        .ok ({ cs with next_label := some name, next_attrs := attrs },
             acc, some (.Chunk old mch))
  | .Label (.NegLabel c) _ =>
    let (id, lls') := incrNegId cs.lls c
    .ok ({ cs with lls := lls' },
         { acc with labels := (id, acc.chunk.data.length) :: acc.labels }, none)
  | .Label (.PosLabel c) _ =>
    let (id, lls') := incrPosId cs.lls c
    .ok ({ cs with lls := lls' },
         { acc with chunk := { acc.chunk with diverging := false },
                    labels := (id, acc.chunk.data.length) :: acc.labels }, none)
  | .LocalLabel depth name =>
    let (id, lls') := pushLocal cs.lls depth name
    .ok ({ cs with lls := lls' },
         { acc with chunk := { acc.chunk with diverging := false },
                    labels := (id, acc.chunk.data.length) :: acc.labels }, none)
  | .RawData data p =>
    let len := acc.chunk.data.length
    let chunk' := { acc.chunk with diverging := true, data := acc.chunk.data ++ data }
    let pending' := acc.pending ++ p.map (fun q => ⟨len + q.1, q.2, false⟩)
    .ok (cs, { acc with chunk := chunk', pending := pending' }, none)
  | .Instruction name size arg =>
    let const_only := leafConstOnly arg.root
    let s := env.size_hint name.toUpper
    let const_only := const_only || (s == SizeHint.Implicit)
    let s := env.sizeAndThen (env.sizeAndThen s arg.size) size
    let pending' :=
      if const_only then acc.pending
      else acc.pending ++ [⟨acc.chunk.data.length + 1, { arg with size := s }, true⟩]
    match env.encode name arg s with
    | none => .error .addressingModeMismatch
    | some (bytes, div) =>
      .ok (cs,
           { acc with
             chunk := { acc.chunk with
               data := acc.chunk.data ++ bytes,
               diverging := acc.chunk.diverging || div },
             pending := pending' }, none)
  | .Error _ => .error .sourceError

/-- The statement loop of `res_next` (lines 175-263): pull statements
until one yields a unit; at end of stream emit the last open chunk under
the pending label, taking the pending label out so that further calls
yield nothing. -/
def resNextLoop (env : Env) (cs : CompState) (acc : ChunkAcc) :
    List Statement → Except Fault (Option CompileData × CompState × List Statement)
  | [] =>
    match cs.next_label with
    | none => .ok (none, cs, [])
    | some c =>
      match mergeLabels acc.chunk acc.labels acc.pending with
      | .error e => .error e
      | .ok ch => .ok (some (.Chunk c ch), { cs with next_label := none }, [])
  | s :: rest =>
    match stepStmt env cs acc s with
    | .error e => .error e
    | .ok (cs', _, some d) => .ok (some d, cs', rest)
    | .ok (cs', acc', none) => resNextLoop env cs' acc' rest

/-- The compiler: remaining statement stream plus persistent state. -/
structure Compiler where
  stmts : List Statement
  cs : CompState
deriving DecidableEq, Repr

/-- `Compiler::res_next`: drain the small output queue first; otherwise
start a fresh chunk, label table and fixup queue and run the statement
loop. -/
def resNext (env : Env) (c : Compiler) : Except Fault (Option CompileData × Compiler) :=
  match c.cs.extra with
  | d :: ds => .ok (some d, ⟨c.stmts, { c.cs with extra := ds }⟩)
  | [] =>
    match resNextLoop env c.cs {} c.stmts with
    | .error e => .error e
    | .ok (out, cs', rest) => .ok (out, ⟨rest, cs'⟩)

/-- `Compiler::new` (line 121): empty queue, no pending attributes, and
the synthetic root label `"*root"` as the first pending label. -/
def initCompiler (stmts : List Statement) : Compiler :=
  ⟨stmts, { extra := [], next_label := some "*root", next_attrs := [], lls := {} }⟩

/-- Repeatedly pull `CompiledUnit`s (the `Iterator` impl), collecting up
to `n` of them; stops early when the stream yields nothing. -/
def runN (env : Env) : Nat → Compiler → Except Fault (List CompileData × Compiler)
  | 0, c => .ok ([], c)
  | n + 1, c =>
    match resNext env c with
    | .error e => .error e
    | .ok (none, c') => .ok ([], c')
    | .ok (some d, c') =>
      match runN env n c' with
      | .error e => .error e
      | .ok (ds, c'') => .ok (d :: ds, c'')

/-- A concrete collaborator instantiation used for closed evaluations: a
single one-byte no-operand encoding, never diverging, mnemonic hint
Word. -/
def envTriv : Env :=
  { size_hint := fun _ => .Word
    sizeAndThen := fun a _ => a
    encode := fun _ _ _ => some ([234], false) }

/-- A collaborator instantiation whose operand encoder always reports an
addressing-mode mismatch. -/
def envMismatch : Env :=
  { size_hint := fun _ => .Word
    sizeAndThen := fun a _ => a
    encode := fun _ _ _ => none }

theorem storeByte_cons (d : Nat) (ds : List Nat) (off b : Nat) :
    storeByte (d :: ds) (off + 1) b = d :: storeByte ds off b := by
  simp only [storeByte, List.length_cons, Nat.add_lt_add_iff_right]
  split
  · rfl
  · simp

theorem storeBytes_cons (bs : List Nat) : ∀ (d : Nat) (ds : List Nat) (off : Nat),
    storeBytes (d :: ds) (off + 1) bs = d :: storeBytes ds off bs := by
  induction bs with
  | nil => intro d ds off; rfl
  | cons b bs ih =>
    intro d ds off
    simp only [storeBytes, storeByte_cons]
    exact ih d (storeByte ds off b) (off + 1)

/-- Cursor writes within bounds splice the written bytes over the old ones:
the bytes before the offset and after the written region are unchanged. -/
theorem storeBytes_splice : ∀ (data : List Nat) (off : Nat) (bs : List Nat),
    off + bs.length ≤ data.length →
    storeBytes data off bs = data.take off ++ bs ++ data.drop (off + bs.length)
  | [], off, bs, h => by
    have hb : bs = [] := by
      cases bs with
      | nil => rfl
      | cons x xs => simp at h
    subst hb
    simp [storeBytes]
  | d :: ds, 0, [], _ => by simp [storeBytes]
  | d :: ds, 0, b :: bs, h => by
    have : storeBytes (d :: ds) 0 (b :: bs) = b :: storeBytes ds 0 bs := by
      simp only [storeBytes, storeByte, List.length_cons, Nat.zero_lt_succ, if_pos,
        List.set]
      exact storeBytes_cons bs b ds 0
    rw [this, storeBytes_splice ds 0 bs (by simp at h; omega)]
    simp [Nat.add_comm]
  | d :: ds, off + 1, bs, h => by
    rw [storeBytes_cons bs d ds off, storeBytes_splice ds off bs (by simp at h; omega)]
    simp [List.take_succ_cons, List.drop_succ_cons, Nat.add_right_comm]

/-- C1: the fixup resolver does patch RelByte/RelWord fixups with the
signed little-endian displacement c − fixup_offset − 1 (first conjunct:
offset 0, target 5, displacement 4), but it performs no range check at
all: a RelByte displacement of 199 (outside [-128,127]) is written as
the silently wrapped byte 199 = (-57 mod 256) with no FieldOverflow
error, and a RelWord displacement of 39999 (outside [-32768,32767]) is
written as the wrapped pair [63, 156].  The code has no overflow path
(`as i8` / `as i16` truncate), contradicting the claim's second half. -/
theorem c1_relative_patch_truncates_silently :
    mergeLabels { data := [0] } [] [⟨0, ⟨.LabelOffset 5, .RelByte⟩, true⟩] =
      .ok { data := [4] } ∧
    mergeLabels { data := [0] } [] [⟨0, ⟨.LabelOffset 200, .RelByte⟩, true⟩] =
      .ok { data := [199] } ∧
    mergeLabels { data := [0, 0] } [] [⟨0, ⟨.LabelOffset 40000, .RelWord⟩, true⟩] =
      .ok { data := [63, 156] } :=
  ⟨rfl, rfl, rfl⟩

/-- C2: statement-level failures are not isolated into an `Error` unit:
an addressing-mode mismatch makes `res_next` abort the whole process
(the `map_err` closure panics), modelled as a `Fault`, not as
`.ok (some (.Error _))`; likewise a Rel-sized fixup reducing to a plain
constant root aborts inside `merge_labels` instead of producing an
`Error` unit.  The caller can not keep pulling units past either. -/
theorem c2_failures_abort_process :
    resNext envMismatch (initCompiler [.Instruction "LDA" .Word ⟨.NegId 0 0, .Word⟩]) =
      .error .addressingModeMismatch ∧
    mergeLabels { data := [0] } [] [⟨0, ⟨.Constant 5, .RelByte⟩, true⟩] =
      .error .internalConsistency :=
  ⟨rfl, rfl⟩

/-- C3: Define units are not returned before further input is pulled, and
several queued units come back reversed: on the stream
[Define A, Define B, Label L] the compiler keeps pulling until the label
boundary, emits the Chunk for "*root" first, and only then returns the
two Defines — last-produced first (B before A), because the small output
queue is a Vec used as a stack (push and pop at the same end). -/
theorem c3_defines_after_chunk_in_reverse_order :
    runN envTriv 10 (initCompiler
        [.Define "A" ⟨.Empty, .Byte⟩, .Define "B" ⟨.Empty, .Byte⟩,
         .Label (.Ident "L") []]) =
      .ok ([.Chunk "*root" {}, .Define "B" ⟨.Empty, .Byte⟩,
            .Define "A" ⟨.Empty, .Byte⟩, .Chunk "L" {}],
           ⟨[], { extra := [], next_label := none, next_attrs := [], lls := {} }⟩) :=
  rfl

/-- C5: a fixup whose substituted expression reduces to a constant c is
patched at exactly its offset with width 1 (Byte), 2 little-endian
(Word) or 3 little-endian (Long) bytes; all buffer bytes before the
offset and after the patched field are unchanged, and the resolved
fixup does not reappear in the outgoing list.  The last conjunct is the
spec scenario: Word constant 0x2A10 = 10768 patches to [0x10, 0x2A]. -/
theorem c5_constant_fixup_patch (chunk : LabeledChunk) (labels : List (ExprNode × Nat))
    (r : LabelRef) (c : Int)
    (hroot : reduceNode (substLeaf labels r.expr.root) = .Constant c) :
    (r.expr.size = .Byte → r.offset + 1 ≤ chunk.data.length →
      mergeLabels chunk labels [r] = .ok { chunk with
        data := chunk.data.take r.offset ++ [u8 c] ++ chunk.data.drop (r.offset + 1),
        pending_exprs := [] }) ∧
    (r.expr.size = .Word → r.offset + 2 ≤ chunk.data.length →
      mergeLabels chunk labels [r] = .ok { chunk with
        data := chunk.data.take r.offset ++ u16le c ++ chunk.data.drop (r.offset + 2),
        pending_exprs := [] }) ∧
    (r.expr.size = .Long → r.offset + 3 ≤ chunk.data.length →
      mergeLabels chunk labels [r] = .ok { chunk with
        data := chunk.data.take r.offset ++ u24le c ++ chunk.data.drop (r.offset + 3),
        pending_exprs := [] }) ∧
    mergeLabels { data := [0, 0, 0, 0] } [] [⟨1, ⟨.Constant 10768, .Word⟩, true⟩] =
      .ok { data := [0, 16, 42, 0] } := by
  refine ⟨?_, ?_, ?_, rfl⟩
  · intro hs hlen
    simp only [mergeLabels, mergeGo, hroot, hs]
    rw [storeBytes_splice chunk.data r.offset [u8 c] (by simpa using hlen)]
    simp
  · intro hs hlen
    simp only [mergeLabels, mergeGo, hroot, hs]
    rw [storeBytes_splice chunk.data r.offset (u16le c) (by simpa [u16le] using hlen)]
    simp [u16le]
  · intro hs hlen
    simp only [mergeLabels, mergeGo, hroot, hs]
    rw [storeBytes_splice chunk.data r.offset (u24le c) (by simpa [u24le] using hlen)]
    simp [u24le]

/-- Witness for C5 at the spec scenario input. -/
theorem c5_witness :
    (1 : Nat) + 2 ≤ 4 ∧
    mergeLabels { data := [0, 0, 0, 0] } [] [⟨1, ⟨.Constant 10768, .Word⟩, true⟩] =
      .ok { data := [0, 16, 42, 0] } :=
  ⟨by decide,
   (c5_constant_fixup_patch { data := [0, 0, 0, 0] } []
      ⟨1, ⟨.Constant 10768, .Word⟩, true⟩ 10768 rfl).2.1 rfl (by decide)⟩

theorem stepStmt_instr_pending (env : Env) (cs cs' : CompState) (acc acc' : ChunkAcc)
    (nm : String) (size : SizeHint) (arg : Expression) (o : Option CompileData)
    (h : stepStmt env cs acc (.Instruction nm size arg) = .ok (cs', acc', o)) :
    acc'.pending =
      if leafConstOnly arg.root || (env.size_hint nm.toUpper == SizeHint.Implicit) then
        acc.pending
      else
        acc.pending ++ [⟨acc.chunk.data.length + 1,
          ⟨arg.root,
           env.sizeAndThen (env.sizeAndThen (env.size_hint nm.toUpper) arg.size) size⟩,
          true⟩] := by
  simp only [stepStmt] at h
  cases henc : env.encode nm arg
      (env.sizeAndThen (env.sizeAndThen (env.size_hint nm.toUpper) arg.size) size) with
  | none => rw [henc] at h; cases h
  | some p =>
    rw [henc] at h
    obtain ⟨bytes, div⟩ := p
    simp only [Except.ok.injEq, Prod.mk.injEq] at h
    obtain ⟨h1, h2, h3⟩ := h
    subst h2
    rfl

/-- C4: when an instruction's operand is not constant-only and the
mnemonic's size hint is not Implicit, exactly one fixup is queued, at
offset equal to the chunk's byte length at that moment plus one (byte 0
is the opcode) and with same_bank = true, carrying the operand
expression under the composed size; when the operand is constant-only,
or the mnemonic's hint is Implicit, no fixup is queued. -/
theorem c4_instruction_fixup (env : Env) (cs cs' : CompState) (acc acc' : ChunkAcc)
    (nm : String) (size : SizeHint) (arg : Expression) (o : Option CompileData)
    (h : stepStmt env cs acc (.Instruction nm size arg) = .ok (cs', acc', o)) :
    (leafConstOnly arg.root = false → env.size_hint nm.toUpper ≠ .Implicit →
      acc'.pending = acc.pending ++ [⟨acc.chunk.data.length + 1,
        ⟨arg.root,
         env.sizeAndThen (env.sizeAndThen (env.size_hint nm.toUpper) arg.size) size⟩,
        true⟩]) ∧
    ((leafConstOnly arg.root = true ∨ env.size_hint nm.toUpper = .Implicit) →
      acc'.pending = acc.pending) := by
  have hp := stepStmt_instr_pending env cs cs' acc acc' nm size arg o h
  constructor
  · intro h1 h2
    rw [hp, if_neg]
    simp [h1, h2]
  · intro h1
    rw [hp, if_pos]
    rcases h1 with h1 | h1 <;> simp [h1]

/-- Witness for C4: a one-unresolved-leaf Word operand on a fresh chunk
queues the single fixup at offset 0 + 1 with same_bank = true. -/
theorem c4_witness :
    leafConstOnly (ExprNode.NegId 0 0) = false ∧
    envTriv.size_hint "LDA".toUpper ≠ SizeHint.Implicit ∧
    ([⟨1, ⟨.NegId 0 0, .Word⟩, true⟩] : List LabelRef) =
      [] ++ [⟨0 + 1, ⟨.NegId 0 0, .Word⟩, true⟩] :=
  ⟨rfl, by decide,
   (c4_instruction_fixup envTriv {} {}
      {} ⟨⟨[234], [], [], false, none⟩, [], [⟨1, ⟨.NegId 0 0, .Word⟩, true⟩]⟩
      "LDA" .Word ⟨.NegId 0 0, .Word⟩ none rfl).1 rfl (by decide)⟩

/-- C6: a RawData statement appends its bytes at the chunk's current
length, sets the diverging flag to true, and queues each accompanying
fixup (off, expr) at offset len + off with same_bank = false; the last
conjunct contrasts this with an instruction-operand fixup on the same
unresolved symbol, which is queued with same_bank = true. -/
theorem c6_rawdata_fixups (env : Env) (cs cs' : CompState) (acc acc' : ChunkAcc)
    (data : List Nat) (p : List (Nat × Expression)) (o : Option CompileData)
    (h : stepStmt env cs acc (.RawData data p) = .ok (cs', acc', o)) :
    acc'.chunk.data = acc.chunk.data ++ data ∧
    acc'.chunk.diverging = true ∧
    acc'.pending = acc.pending ++
      p.map (fun q => ⟨acc.chunk.data.length + q.1, q.2, false⟩) ∧
    stepStmt envTriv {} {} (.Instruction "LDA" .Word ⟨.NegId 3 0, .Word⟩) =
      .ok ({}, ⟨⟨[234], [], [], false, none⟩, [], [⟨1, ⟨.NegId 3 0, .Word⟩, true⟩]⟩,
           none) := by
  simp only [stepStmt, Except.ok.injEq, Prod.mk.injEq] at h
  obtain ⟨h1, h2, h3⟩ := h
  subst h2
  exact ⟨rfl, rfl, rfl, rfl⟩

/-- Witness for C6: one raw byte with one accompanying fixup on the
symbol NegId 3 0 is queued with same_bank = false. -/
theorem c6_witness :
    stepStmt envTriv {} {} (.RawData [7] [(0, ⟨.NegId 3 0, .Word⟩)]) =
      .ok ({}, ⟨⟨[7], [], [], true, none⟩, [], [⟨0, ⟨.NegId 3 0, .Word⟩, false⟩]⟩, none) ∧
    ([⟨0, ⟨.NegId 3 0, .Word⟩, false⟩] : List LabelRef) =
      [] ++ [(0, ⟨.NegId 3 0, .Word⟩)].map
        (fun q => ⟨({} : ChunkAcc).chunk.data.length + q.1, q.2, false⟩) :=
  ⟨rfl,
   (c6_rawdata_fixups envTriv {} {} {}
      ⟨⟨[7], [], [], true, none⟩, [], [⟨0, ⟨.NegId 3 0, .Word⟩, false⟩]⟩
      [7] [(0, ⟨.NegId 3 0, .Word⟩)] none rfl).2.2.1⟩

/-- C7: a top-level label statement emits the current chunk under the
previously pending label name, attaches the previously pending attribute
set (whose last bank-pin attribute, if any, sets the chunk's bank pin via
bankFold), and stores the new label's name and attributes as the next
pending pair.  The last conjunct is the adjacent-labels scenario: on
[Label A [Bank 3], Label B []] the chunk emitted for label A has empty
bytes, no outgoing fixups, the pending attribute set [Bank 3] and bank
pin 3. -/
theorem c7_label_boundary (env : Env) (cs : CompState) (acc : ChunkAcc)
    (nm old : String) (attrs : List Attribute) (mch : LabeledChunk)
    (hold : cs.next_label = some old)
    (hm : mergeLabels acc.chunk acc.labels acc.pending = .ok mch) :
    stepStmt env cs acc (.Label (.Ident nm) attrs) =
      .ok ({ cs with next_label := some nm, next_attrs := attrs }, acc,
           some (.Chunk old { mch with
             bank_hint := bankFold cs.next_attrs mch.bank_hint,
             attrs := cs.next_attrs })) ∧
    runN envTriv 4 (initCompiler
        [.Label (.Ident "A") [.Bank 3], .Label (.Ident "B") []]) =
      .ok ([.Chunk "*root" {}, .Chunk "A" { attrs := [.Bank 3], bank_hint := some 3 },
            .Chunk "B" {}],
           ⟨[], { extra := [], next_label := none, next_attrs := [], lls := {} }⟩) := by
  constructor
  · simp only [stepStmt, hold, hm]
  · rfl

/-- Witness for C7: pending pair ("A", [Other x, Bank 3]) is attached to
the emitted chunk when label B arrives, and B becomes pending. -/
theorem c7_witness :
    CompState.next_label
        { next_label := some "A", next_attrs := [.Other "x", .Bank 3] } = some "A" ∧
    stepStmt envTriv { next_label := some "A", next_attrs := [.Other "x", .Bank 3] } {}
        (.Label (.Ident "B") []) =
      .ok ({ next_label := some "B", next_attrs := [] }, {},
           some (.Chunk "A" { attrs := [.Other "x", .Bank 3], bank_hint := some 3 })) :=
  ⟨rfl,
   (c7_label_boundary envTriv
      { next_label := some "A", next_attrs := [.Other "x", .Bank 3] } {}
      "B" "A" [] {} rfl rfl).1⟩

/-- C8: a backward anonymous label records its fresh identity at the
current byte length and leaves the diverging flag unchanged; a forward
anonymous label and a named local label record their identities at the
current byte length and clear the diverging flag; so (last conjunct) a
RawData statement followed by a LocalLabel in the same chunk leaves
diverging = false. -/
theorem c8_local_label_diverging (env : Env) (cs : CompState) (acc : ChunkAcc)
    (c depth : Nat) (nm : String) (a1 a2 : List Attribute)
    (csn csp csl : CompState) (an ap al : ChunkAcc) (o1 o2 o3 : Option CompileData)
    (hn : stepStmt env cs acc (.Label (.NegLabel c) a1) = .ok (csn, an, o1))
    (hp : stepStmt env cs acc (.Label (.PosLabel c) a2) = .ok (csp, ap, o2))
    (hl : stepStmt env cs acc (.LocalLabel depth nm) = .ok (csl, al, o3)) :
    (an.labels = ((incrNegId cs.lls c).1, acc.chunk.data.length) :: acc.labels ∧
     an.chunk.diverging = acc.chunk.diverging) ∧
    (ap.labels = ((incrPosId cs.lls c).1, acc.chunk.data.length) :: acc.labels ∧
     ap.chunk.diverging = false) ∧
    (al.labels = ((pushLocal cs.lls depth nm).1, acc.chunk.data.length) :: acc.labels ∧
     al.chunk.diverging = false) ∧
    (∀ cs2 acc2 o4, stepStmt env cs acc (.RawData [1] []) = .ok (cs2, acc2, o4) →
      ∀ cs3 acc3 o5, stepStmt env cs2 acc2 (.LocalLabel 0 "x") = .ok (cs3, acc3, o5) →
      acc2.chunk.diverging = true ∧ acc3.chunk.diverging = false) := by
  simp only [stepStmt, Except.ok.injEq, Prod.mk.injEq] at hn hp hl
  obtain ⟨-, hn2, -⟩ := hn
  obtain ⟨-, hp2, -⟩ := hp
  obtain ⟨-, hl2, -⟩ := hl
  subst hn2 hp2 hl2
  refine ⟨⟨rfl, rfl⟩, ⟨rfl, rfl⟩, ⟨rfl, rfl⟩, ?_⟩
  intro cs2 acc2 o4 h4 cs3 acc3 o5 h5
  simp only [stepStmt, Except.ok.injEq, Prod.mk.injEq] at h4
  obtain ⟨-, h42, -⟩ := h4
  subst h42
  simp only [stepStmt, Except.ok.injEq, Prod.mk.injEq] at h5
  obtain ⟨-, h52, -⟩ := h5
  subst h52
  exact ⟨rfl, rfl⟩

/-- Witness for C8 on a fresh chunk: the backward anonymous label NegId 0 0
is recorded at offset 0 and diverging stays at its prior value. -/
theorem c8_witness :
    stepStmt envTriv {} {} (.Label (.NegLabel 0) []) =
      .ok ({ lls := { negCtr := 1 } }, { labels := [(.NegId 0 0, 0)] }, none) ∧
    (({ labels := [(.NegId 0 0, 0)] } : ChunkAcc).labels =
       ((incrNegId ({} : CompState).lls 0).1,
        ({} : ChunkAcc).chunk.data.length) :: ({} : ChunkAcc).labels ∧
     ({ labels := [(.NegId 0 0, 0)] } : ChunkAcc).chunk.diverging =
       ({} : ChunkAcc).chunk.diverging) :=
  ⟨rfl,
   (c8_local_label_diverging envTriv {} {} 0 0 "x" [] []
      { lls := { negCtr := 1 } } { lls := { posCtr := 1 } } { lls := { locCtr := 1 } }
      { labels := [(.NegId 0 0, 0)] } (⟨⟨[], [], [], false, none⟩, [(.PosId 0 0, 0)], []⟩)
      (⟨⟨[], [], [], false, none⟩, [(.LocalId 0 "x" 0, 0)], []⟩) none none none
      rfl rfl rfl).1⟩

/-- C9 counterexample: on the stream [Define "A"] the final Chunk unit
(for "*root") is emitted first, and the very next request returns the
queued Define unit — not nothing — refuting the claim that every request
after the final Chunk unit returns nothing. -/
theorem c9_counterexample :
    resNext envTriv (initCompiler [.Define "A" ⟨.Empty, .Byte⟩]) =
      .ok (some (.Chunk "*root" {}),
           ⟨[], { extra := [.Define "A" ⟨.Empty, .Byte⟩], next_label := none,
                  next_attrs := [], lls := {} }⟩) ∧
    resNext envTriv ⟨[], { extra := [.Define "A" ⟨.Empty, .Byte⟩], next_label := none,
                           next_attrs := [], lls := {} }⟩ =
      .ok (some (.Define "A" ⟨.Empty, .Byte⟩),
           ⟨[], { extra := [], next_label := none, next_attrs := [], lls := {} }⟩) :=
  ⟨rfl, rfl⟩

/-- C9 (amended): at end of stream with the small output queue already
drained, the compiler emits the last open chunk as a final Chunk unit
under the pending label and clears the pending label; afterwards every
further request returns nothing, and repeated requests keep returning
nothing without changing any state. -/
theorem c9_end_of_stream_idempotent (env : Env) (c : Compiler) (l : String)
    (hs : c.stmts = []) (hx : c.cs.extra = []) (hl : c.cs.next_label = some l) :
    resNext env c = .ok (some (.Chunk l {}), ⟨[], { c.cs with next_label := none }⟩) ∧
    ∀ n, runN env n ⟨[], { c.cs with next_label := none }⟩ =
      .ok ([], ⟨[], { c.cs with next_label := none }⟩) := by
  obtain ⟨stmts, cs⟩ := c
  simp only at hs hx hl
  subst hs
  constructor
  · simp only [resNext, hx, resNextLoop, hl]
    rfl
  · intro n
    cases n with
    | zero => rfl
    | succ n =>
      simp only [runN, resNext, hx, resNextLoop]

/-- Witness for C9 at the empty stream: the root chunk is emitted, then
nothing, repeatedly, with unchanged state. -/
theorem c9_witness :
    resNext envTriv (initCompiler []) =
      .ok (some (.Chunk "*root" {}),
           ⟨[], { extra := [], next_label := none, next_attrs := [], lls := {} }⟩) ∧
    ∀ n, runN envTriv n
        ⟨[], { extra := [], next_label := none, next_attrs := [], lls := {} }⟩ =
      .ok ([], ⟨[], { extra := [], next_label := none, next_attrs := [], lls := {} }⟩) :=
  c9_end_of_stream_idempotent envTriv (initCompiler []) "*root" rfl rfl rfl

theorem stepStmt_none_next_label (env : Env) (cs cs' : CompState) (acc acc' : ChunkAcc)
    (s : Statement) (h : stepStmt env cs acc s = .ok (cs', acc', none)) :
    cs'.next_label = cs.next_label := by
  cases s with
  | Define lbl e =>
    simp only [stepStmt, Except.ok.injEq, Prod.mk.injEq] at h
    obtain ⟨h1, -, -⟩ := h
    subst h1
    rfl
  | Label nme attrs =>
    cases nme with
    | Ident nm =>
      simp only [stepStmt] at h
      cases hnl : cs.next_label with
      | none => rw [hnl] at h; cases h
      | some old =>
        rw [hnl] at h
        cases hm : mergeLabels acc.chunk acc.labels acc.pending with
        | error e => rw [hm] at h; cases h
        | ok mch => rw [hm] at h; simp at h
    | NegLabel c =>
      simp only [stepStmt, Except.ok.injEq, Prod.mk.injEq] at h
      obtain ⟨h1, -, -⟩ := h
      subst h1
      rfl
    | PosLabel c =>
      simp only [stepStmt, Except.ok.injEq, Prod.mk.injEq] at h
      obtain ⟨h1, -, -⟩ := h
      subst h1
      rfl
  | LocalLabel depth nm =>
    simp only [stepStmt, Except.ok.injEq, Prod.mk.injEq] at h
    obtain ⟨h1, -, -⟩ := h
    subst h1
    rfl
  | RawData data p =>
    simp only [stepStmt, Except.ok.injEq, Prod.mk.injEq] at h
    obtain ⟨h1, -, -⟩ := h
    subst h1
    rfl
  | Instruction nm sz arg =>
    simp only [stepStmt] at h
    cases henc : env.encode nm arg
        (env.sizeAndThen (env.sizeAndThen (env.size_hint nm.toUpper) arg.size) sz) with
    | none => rw [henc] at h; cases h
    | some p =>
      rw [henc] at h
      obtain ⟨bytes, div⟩ := p
      simp only [Except.ok.injEq, Prod.mk.injEq] at h
      obtain ⟨h1, -, -⟩ := h
      subst h1
      rfl
  | Error msg => simp only [stepStmt] at h; cases h

theorem stepStmt_some_label (env : Env) (cs cs' : CompState) (acc acc' : ChunkAcc)
    (s : Statement) (d : CompileData) (l : String)
    (h : stepStmt env cs acc s = .ok (cs', acc', some d))
    (hl : cs.next_label = some l) : ∃ ch, d = .Chunk l ch := by
  cases s with
  | Define lbl e => simp only [stepStmt, Except.ok.injEq, Prod.mk.injEq] at h; simp at h
  | Label nme attrs =>
    cases nme with
    | Ident nm =>
      simp only [stepStmt, hl] at h
      cases hm : mergeLabels acc.chunk acc.labels acc.pending with
      | error e => rw [hm] at h; cases h
      | ok mch =>
        rw [hm] at h
        simp only [Except.ok.injEq, Prod.mk.injEq, Option.some.injEq] at h
        obtain ⟨-, -, h3⟩ := h
        exact ⟨_, h3.symm⟩
    | NegLabel c => simp only [stepStmt, Except.ok.injEq, Prod.mk.injEq] at h; simp at h
    | PosLabel c => simp only [stepStmt, Except.ok.injEq, Prod.mk.injEq] at h; simp at h
  | LocalLabel depth nm =>
    simp only [stepStmt, Except.ok.injEq, Prod.mk.injEq] at h; simp at h
  | RawData data p =>
    simp only [stepStmt, Except.ok.injEq, Prod.mk.injEq] at h; simp at h
  | Instruction nm sz arg =>
    simp only [stepStmt] at h
    cases henc : env.encode nm arg
        (env.sizeAndThen (env.sizeAndThen (env.size_hint nm.toUpper) arg.size) sz) with
    | none => rw [henc] at h; cases h
    | some p =>
      rw [henc] at h
      obtain ⟨bytes, div⟩ := p
      simp at h
  | Error msg => simp only [stepStmt] at h; cases h

theorem resNextLoop_emit_label (env : Env) :
    ∀ (stmts : List Statement) (cs : CompState) (acc : ChunkAcc)
      (d : CompileData) (cs' : CompState) (rest : List Statement) (l : String),
      resNextLoop env cs acc stmts = .ok (some d, cs', rest) →
      cs.next_label = some l → ∃ ch, d = .Chunk l ch := by
  intro stmts
  induction stmts with
  | nil =>
    intro cs acc d cs' rest l h hl
    simp only [resNextLoop, hl] at h
    cases hm : mergeLabels acc.chunk acc.labels acc.pending with
    | error e => rw [hm] at h; cases h
    | ok ch =>
      rw [hm] at h
      simp only [Except.ok.injEq, Prod.mk.injEq, Option.some.injEq] at h
      obtain ⟨h1, -⟩ := h
      exact ⟨ch, h1.symm⟩
  | cons s rest ih =>
    intro cs acc d cs' rest2 l h hl
    simp only [resNextLoop] at h
    cases hs : stepStmt env cs acc s with
    | error e => rw [hs] at h; cases h
    | ok t =>
      obtain ⟨cs2, acc2, o⟩ := t
      rw [hs] at h
      cases o with
      | some d2 =>
        simp only [Except.ok.injEq, Prod.mk.injEq, Option.some.injEq] at h
        obtain ⟨h1, -⟩ := h
        subst h1
        exact stepStmt_some_label env cs cs2 acc acc2 s d2 l hs hl
      | none =>
        have hnl : cs2.next_label = some l :=
          (stepStmt_none_next_label env cs cs2 acc acc2 s hs).trans hl
        exact ih cs2 acc2 d cs' rest2 l h hnl

/-- C10: from a freshly constructed compiler (whose pending label is the
synthetic root identifier installed by the constructor), whatever
statements precede the first top-level label, the first emitted unit is
a Chunk labeled exactly "*root" carrying everything produced so far. -/
theorem c10_root_chunk_label (env : Env) (stmts : List Statement)
    (d : CompileData) (c' : Compiler)
    (h : resNext env (initCompiler stmts) = .ok (some d, c')) :
    ∃ ch, d = .Chunk "*root" ch := by
  simp only [resNext, initCompiler] at h
  cases hr : resNextLoop env
      { extra := [], next_label := some "*root", next_attrs := [], lls := {} } {} stmts with
  | error e => rw [hr] at h; cases h
  | ok t =>
    obtain ⟨o, cs2, rest⟩ := t
    rw [hr] at h
    cases o with
    | none => simp at h
    | some d2 =>
      simp only [Except.ok.injEq, Prod.mk.injEq, Option.some.injEq] at h
      obtain ⟨h1, -⟩ := h
      subst h1
      exact resNextLoop_emit_label env stmts _ {} d2 cs2 rest "*root" hr rfl

/-- Witness for C10: a lone RawData statement before end of stream ends up
in the chunk labeled "*root". -/
theorem c10_witness :
    resNext envTriv (initCompiler [.RawData [5] []]) =
      .ok (some (.Chunk "*root" { data := [5], diverging := true }),
           ⟨[], { extra := [], next_label := none, next_attrs := [], lls := {} }⟩) ∧
    ∃ ch, (CompileData.Chunk "*root" { data := [5], diverging := true }) =
      .Chunk "*root" ch :=
  ⟨rfl,
   c10_root_chunk_label envTriv [.RawData [5] []]
     (.Chunk "*root" { data := [5], diverging := true })
     ⟨[], { extra := [], next_label := none, next_attrs := [], lls := {} }⟩ rfl⟩
